import Mathlib

/-!
Verification of the signal-synthesis / feature-extraction core of the
`non-deegree-workshops-2025` teaching corpus.

The feature extractor is embedded from
`nd3-py-machine-learning/csv_tf/train_features.py`
(`extract_features_from_sequence`, `load_csv_data_with_features`); the
signal synthesizer from the generation pattern of
`nd3-py-machine-learning/codes/chapter01.py` and
`python-matplotlib/workshops/nicegui/signal_visualizer.py` (`add_noise`).
Machine floats are idealized as real numbers; the numpy pseudo-random
stream is abstracted as an arbitrary deviate kernel (see `GaussKernel`).
-/


namespace Workshops

/-! ## Definitions: statistics primitives and the feature extractor -/

/-- `np.mean(xs)` : sum divided by length (real-number idealization). -/
noncomputable def npMean (xs : List ℝ) : ℝ := xs.sum / xs.length


/-- `np.std(xs)` : the population standard deviation,
`sqrt(mean((x - mean)^2))` with denominator `xs.length`. -/
noncomputable def npStd (xs : List ℝ) : ℝ :=
  Real.sqrt ((xs.map (fun x => (x - npMean xs) ^ 2)).sum / xs.length)


/-- `np.sqrt(np.mean(xs**2))` : root-mean-square. -/
noncomputable def npRms (xs : List ℝ) : ℝ :=
  Real.sqrt ((xs.map (fun x => x ^ 2)).sum / xs.length)


/-- Errors of the feature extractor. -/
inductive ExtractError where
  | emptyWindow
deriving DecidableEq


/-- `np.min(xs)`. On an empty array numpy raises
`ValueError: zero-size array to reduction operation minimum which has no
identity`; that exception is what the spec's error taxonomy calls
`EmptyWindow`, so the empty case is an `EmptyWindow` error here. -/
def npMin : List ℝ → Except ExtractError ℝ
  | [] => .error .emptyWindow
  | x :: xs => .ok (xs.foldl min x)


/-- `np.max(xs)`, with the same empty-array failure as `npMin`. -/
def npMax : List ℝ → Except ExtractError ℝ
  | [] => .error .emptyWindow
  | x :: xs => .ok (xs.foldl max x)


/-- Total versions of min/max for stating results on non-empty lists. -/
noncomputable def minD : List ℝ → ℝ
  | [] => 0
  | x :: xs => xs.foldl min x


/-- Total version of `npMax` for non-empty lists. -/
noncomputable def maxD : List ℝ → ℝ
  | [] => 0
  | x :: xs => xs.foldl max x


/-- `sequence[:, j]` : column `j` of a 2-D array stored as a list of rows. -/
noncomputable def column (w : List (List ℝ)) (j : ℕ) : List ℝ :=
  w.map (fun row => row.getD j 0)


/-- The loop body of `extract_features_from_sequence` for one axis:
append mean, standard deviation, min, max, RMS and peak-to-peak of the
axis data, in that order.  The min/max reductions fail on an empty axis
(numpy `ValueError`, the spec's EmptyWindow). -/
noncomputable def axisFeatures (xs : List ℝ) : Except ExtractError (List ℝ) := do
  let mn ← npMin xs
  let mx ← npMax xs
  pure [npMean xs, npStd xs, mn, mx, npRms xs, mx - mn]


/-- Exception-propagating map, mirroring a Python `for` loop in which an
iteration may raise: iterations run left to right and the first raised
exception aborts the whole loop. -/
def mapE (f : α → Except ε β) : List α → Except ε (List β)
  | [] => .ok []
  | a :: l => do
    let b ← f a
    let bs ← mapE f l
    pure (b :: bs)


/-- `extract_features_from_sequence(sequence)` from `train_features.py`:
for each axis index below the column count, append the six statistics of
that column; the result is the flat (axis-major) feature list.  `cols`
plays `sequence.shape[1]`. -/
noncomputable def extract_features_from_sequence (w : List (List ℝ)) (cols : ℕ) :
    Except ExtractError (List ℝ) := do
  let chunks ← mapE (fun j => axisFeatures (column w j)) (List.range cols)
  pure chunks.flatten


/-! ## Definitions: signal synthesizer -/

/-- Modelled from the spec: the Gaussian deviate stream of the external
pseudo-random library (`np.random`) is not repository code, so its
numeric values are abstracted: `unit s i` is the `i`-th unit-normal
deviate of the stream whose state was seeded with `s`.  Only the
library's contracts used by the repository are modelled: determinism per
`(seed, index)` and the scaling `normal(0, σ)[i] = σ * unit[i]`. -/
structure GaussKernel where
  unit : ℕ → ℕ → ℝ


/-- The global `np.random` state: the seed key last set by
`np.random.seed` and the number of deviates consumed since then. -/
structure NpRandomState where
  key : ℕ
  pos : ℕ


/-- `np.random.seed(s)` : reset the global stream, discarding the
previous state entirely. -/
def np_random_seed (s : ℕ) (_st : NpRandomState) : NpRandomState := ⟨s, 0⟩


/-- Errors of the synthesizer. -/
inductive SynthError where
  | invalidConfiguration
deriving DecidableEq


/-- `np.random.normal(0, scale, n)` : numpy rejects a negative `scale`
with `ValueError: scale < 0` (the spec's InvalidConfiguration — never a
silent clamp); otherwise it returns `n` deviates scaled by `scale` and
advances the stream by `n`. -/
noncomputable def np_random_normal (K : GaussKernel) (scale : ℝ) (n : ℕ)
    (st : NpRandomState) : Except SynthError (List ℝ × NpRandomState) :=
  if scale < 0 then .error .invalidConfiguration
  else .ok ((List.range n).map (fun i => scale * K.unit st.key (st.pos + i)),
            ⟨st.key, st.pos + n⟩)


/-- `add_noise(signal, noise_level, seed)` from `signal_visualizer.py`:
if a seed is given the global stream is reseeded first, then one
Gaussian deviate per sample is drawn and added elementwise. -/
noncomputable def add_noise (K : GaussKernel) (signal : List ℝ) (noise_level : ℝ)
    (seed : Option ℕ) (st : NpRandomState) : Except SynthError (List ℝ × NpRandomState) :=
  let st1 := match seed with
    | some s => np_random_seed s st
    | none => st
  (np_random_normal K noise_level signal.length st1).bind
    (fun p => .ok (signal.zipWith (· + ·) p.fst, p.snd))


/-- The synthesis configuration of the spec's data model. -/
structure SynthesisSpec where
  base : ℝ
  amplitude : ℝ
  angular_rate : ℝ
  noise_std : ℝ
  seed : ℕ


/-- Modelled from the spec: the `synthesize` operation is the spec's
name for the generation pattern that the repository repeats inline —
`np.random.seed(seed)` followed by
`base + amplitude * np.sin(rate * t) + np.random.normal(0, noise_std, len(t))`
(chapter01.py), equivalently a clean sinusoid passed through
`add_noise(..., seed=seed)` (signal_visualizer.py). -/
noncomputable def synthesize (K : GaussKernel) (ts : List ℝ) (sp : SynthesisSpec)
    (st : NpRandomState) : Except SynthError (List ℝ × NpRandomState) :=
  add_noise K (ts.map (fun t => sp.base + sp.amplitude * Real.sin (sp.angular_rate * t)))
    sp.noise_std (some sp.seed) st


/-- The scenario timestamp grid `[0, 0.1, ..., 9.9]` (100 points). -/
noncomputable def ts100 : List ℝ := (List.range 100).map (fun i => (i : ℝ) / 10)


/-- The scenario spec `{base=50, amplitude=0.5, angular_rate=1, noise_std=0, seed=42}`. -/
noncomputable def spec50 : SynthesisSpec := ⟨50, 1 / 2, 1, 0, 42⟩


/-! ## Definitions: dataset loader (`load_csv_data_with_features`) -/

/-- One sample file: its file name and the `(time_steps, 3)` array read
from its `ax, ay, az` columns. -/
structure CsvFile where
  name : String
  rows : List (List ℝ)


/-- One condition subdirectory of the dataset root. -/
structure ConditionDir where
  name : String
  files : List CsvFile


/-- The fixed `condition_mapping` dictionary of `train_features.py`. -/
def condition_mapping (c : String) : Option ℕ :=
  if c = "normal" then some 0
  else if c = "bearing" then some 1
  else if c = "misalignment" then some 2
  else if c = "imbalance" then some 3
  else none


/-- `sorted(condition_mapping.keys())`. -/
def condition_names : List String := ["bearing", "imbalance", "misalignment", "normal"]


/-- `sorted(condition_dirs)` : lexicographic order on path names. -/
def sortDirs (l : List ConditionDir) : List ConditionDir :=
  l.mergeSort (fun a b => decide (a.name ≤ b.name))


/-- `sorted(condition_dir.glob("*.csv"))` : lexicographic order on file names. -/
def sortFiles (l : List CsvFile) : List CsvFile :=
  l.mergeSort (fun a b => decide (a.name ≤ b.name))


/-- Errors of the dataset loader (all `ValueError`s in the source). -/
inductive LoadError where
  | missingDirectory
  | noSubdirectories
  | emptyWindow
deriving DecidableEq


/-- One iteration of the condition-directory loop of
`load_csv_data_with_features`: an unrecognized directory name is skipped
with a warning only; otherwise each csv file, in sorted name order, is
read and its features extracted (3 axis columns `ax, ay, az`), emitting
one feature row and one label per file. -/
noncomputable def processDir (d : ConditionDir) : Except LoadError (List (List ℝ) × List ℕ) :=
  match condition_mapping d.name with
  | none => .ok ([], [])
  | some label =>
    (Except.mapError (fun _ => LoadError.emptyWindow)
        (mapE (fun f => extract_features_from_sequence f.rows 3) (sortFiles d.files))).bind
      (fun xs => .ok (xs, (sortFiles d.files).map (fun _ => label)))


/-- `load_csv_data_with_features(directory)` : `none` models a root path
that does not exist (`ValueError`, the spec's MissingDirectory); an
empty listing raises `No condition subdirectories found`; otherwise the
condition directories are visited in sorted order, accumulating
`X_list` and `y_list`, and the sorted class-name list is returned. -/
noncomputable def load_csv_data_with_features (root : Option (List ConditionDir)) :
    Except LoadError (List (List ℝ) × List ℕ × List String) :=
  match root with
  | none => .error .missingDirectory
  | some dirs =>
    if dirs.isEmpty then .error .noSubdirectories
    else
      (mapE processDir (sortDirs dirs)).bind
        (fun parts => .ok ((parts.map Prod.fst).flatten, (parts.map Prod.snd).flatten,
          condition_names))


/-! ## Theorems: basic lemmas about the extractor primitives -/

theorem mapE_nil (f : α → Except ε β) : mapE f [] = .ok [] := rfl


theorem mapE_cons (f : α → Except ε β) (a : α) (l : List α) :
    mapE f (a :: l) = (f a).bind (fun b => (mapE f l).bind (fun bs => .ok (b :: bs))) := rfl


theorem mapE_ok_of_forall_ok (f : α → Except ε β) (g : α → β) :
    ∀ l : List α, (∀ a ∈ l, f a = .ok (g a)) → mapE f l = .ok (l.map g) := by
  intro l
  induction l with
  | nil => intro _; rfl
  | cons a l ih =>
    intro h
    rw [mapE_cons, h a (List.mem_cons_self a l), ih (fun b hb => h b (List.mem_cons_of_mem a hb))]
    rfl


theorem axisFeatures_ok (x : ℝ) (xs : List ℝ) :
    axisFeatures (x :: xs) =
      .ok [npMean (x :: xs), npStd (x :: xs), minD (x :: xs), maxD (x :: xs),
           npRms (x :: xs), maxD (x :: xs) - minD (x :: xs)] := rfl


theorem axisFeatures_err : axisFeatures [] = .error .emptyWindow := rfl


/-- On a non-empty window every column is non-empty, so per-axis
extraction succeeds; the result is the list of six-statistics chunks,
flattened in axis order. -/
theorem extract_ok_of_ne_nil (w : List (List ℝ)) (cols : ℕ) (hw : w ≠ []) :
    extract_features_from_sequence w cols =
      .ok ((List.range cols).map (fun j =>
        [npMean (column w j), npStd (column w j), minD (column w j), maxD (column w j),
         npRms (column w j), maxD (column w j) - minD (column w j)])).flatten := by
  obtain ⟨r, w', rfl⟩ := List.exists_cons_of_ne_nil hw
  unfold extract_features_from_sequence
  have h : ∀ j ∈ List.range cols, axisFeatures (column (r :: w') j) =
      .ok [npMean (column (r :: w') j), npStd (column (r :: w') j), minD (column (r :: w') j),
           maxD (column (r :: w') j), npRms (column (r :: w') j),
           maxD (column (r :: w') j) - minD (column (r :: w') j)] := by
    intro j _
    have hc : column (r :: w') j = r.getD j 0 :: w'.map (fun row => row.getD j 0) := rfl
    rw [hc]
    exact axisFeatures_ok _ _
  rw [mapE_ok_of_forall_ok _ _ _ h]
  rfl


/-- Claim C4: on a window with zero time steps (and at least one axis)
the extractor fails with the EmptyWindow error instead of returning a
vector: the first axis reduction aborts the loop. -/
theorem extract_empty_window_fails (w : List (List ℝ)) (cols : ℕ)
    (hw : w = []) (hc : 1 ≤ cols) :
    extract_features_from_sequence w cols = .error .emptyWindow := by
  subst hw
  obtain ⟨k, rfl⟩ : ∃ k, cols = k + 1 := ⟨cols - 1, by omega⟩
  unfold extract_features_from_sequence
  rw [List.range_succ_eq_map, mapE_cons]
  have hcol : column ([] : List (List ℝ)) 0 = [] := rfl
  rw [hcol, axisFeatures_err]
  rfl


/-- Claim C4 witness: a concrete empty 3-axis window is rejected. -/
theorem extract_empty_window_fails_witness :
    ([] : List (List ℝ)) = [] ∧ 1 ≤ 3 ∧
      extract_features_from_sequence [] 3 = .error .emptyWindow :=
  ⟨rfl, by norm_num, extract_empty_window_fails [] 3 rfl (by norm_num)⟩


/-! ## Theorems: chunk structure of the flattened feature list -/

theorem flatten_chunk_length (n : ℕ) :
    ∀ L : List (List ℝ), (∀ c ∈ L, c.length = n) → L.flatten.length = n * L.length := by
  intro L
  induction L with
  | nil => intro _; simp
  | cons c L ih =>
    intro h
    have hc : c.length = n := h c (List.mem_cons_self c L)
    have hL : L.flatten.length = n * L.length :=
      ih (fun d hd => h d (List.mem_cons_of_mem c hd))
    simp only [List.flatten_cons, List.length_append, hc, hL, List.length_cons]
    ring


theorem flatten_chunk_drop_take (n : ℕ) :
    ∀ (L : List (List ℝ)) (_ : ∀ c ∈ L, c.length = n) (j : ℕ), j < L.length →
      (L.flatten.drop (n * j)).take n = L.getD j [] := by
  intro L
  induction L with
  | nil => intro _ j hj; simp at hj
  | cons c L ih =>
    intro h j hj
    cases j with
    | zero =>
      simp only [Nat.mul_zero, List.drop_zero, List.flatten_cons, List.getD_cons_zero]
      exact List.take_left' (h c (List.mem_cons_self c L))
    | succ j =>
      have hc : c.length = n := h c (List.mem_cons_self c L)
      have hdrop : ((c :: L).flatten.drop (n * (j + 1))) = L.flatten.drop (n * j) := by
        rw [List.flatten_cons, show n * (j + 1) = c.length + n * j by rw [hc]; ring,
          List.drop_append]
      rw [hdrop, List.getD_cons_succ]
      exact ih (fun d hd => h d (List.mem_cons_of_mem c hd)) j (Nat.lt_of_succ_lt_succ hj)


/-- On a non-empty window, extraction succeeds, the output has length
`6 * cols`, and the six statistics of axis `j` sit at offset `6 * j`. -/
theorem extract_chunks_spec (w : List (List ℝ)) (cols : ℕ) (hw : w ≠ []) :
    ∃ fs, extract_features_from_sequence w cols = .ok fs ∧
      fs.length = 6 * cols ∧
      ∀ j < cols, (fs.drop (6 * j)).take 6 =
        [npMean (column w j), npStd (column w j), minD (column w j), maxD (column w j),
         npRms (column w j), maxD (column w j) - minD (column w j)] := by
  have hchunks : ∀ c ∈ (List.range cols).map (fun j =>
      [npMean (column w j), npStd (column w j), minD (column w j), maxD (column w j),
       npRms (column w j), maxD (column w j) - minD (column w j)]), c.length = 6 := by
    intro c hmem
    obtain ⟨j, _, rfl⟩ := List.mem_map.mp hmem
    rfl
  refine ⟨_, extract_ok_of_ne_nil w cols hw, ?_, ?_⟩
  · rw [flatten_chunk_length 6 _ hchunks]
    simp
  · intro j hj
    have hjlen : j < ((List.range cols).map (fun j =>
        [npMean (column w j), npStd (column w j), minD (column w j), maxD (column w j),
         npRms (column w j), maxD (column w j) - minD (column w j)])).length := by
      simpa using hj
    rw [flatten_chunk_drop_take 6 _ hchunks j hjlen, List.getD_eq_getElem _ _ hjlen,
      List.getElem_map]
    simp


/-- Claim C1: on a non-empty rectangular window with at least one axis,
extraction succeeds, the output has length exactly `6 * cols`, and the
six statistics of axis `j` appear contiguously at offset `6 * j` in the
fixed order mean, standard deviation, min, max, RMS, peak-to-peak. -/
theorem extract_axis_major (w : List (List ℝ)) (cols : ℕ)
    (hw : w ≠ []) (_hc : 1 ≤ cols) (_hrect : ∀ r ∈ w, r.length = cols) :
    ∃ fs, extract_features_from_sequence w cols = .ok fs ∧
      fs.length = 6 * cols ∧
      ∀ j < cols, (fs.drop (6 * j)).take 6 =
        [npMean (column w j), npStd (column w j), minD (column w j), maxD (column w j),
         npRms (column w j), maxD (column w j) - minD (column w j)] :=
  extract_chunks_spec w cols hw


/-- Claim C1 witness: a concrete 2×2 window satisfies the hypotheses and
the axis-major conclusion. -/
theorem extract_axis_major_witness :
    (([[1, 2], [3, 4]] : List (List ℝ)) ≠ [] ∧ 1 ≤ 2 ∧
      ∀ r ∈ ([[1, 2], [3, 4]] : List (List ℝ)), r.length = 2) ∧
    (∃ fs, extract_features_from_sequence [[1, 2], [3, 4]] 2 = .ok fs ∧
      fs.length = 6 * 2 ∧
      ∀ j < 2, (fs.drop (6 * j)).take 6 =
        [npMean (column [[1, 2], [3, 4]] j), npStd (column [[1, 2], [3, 4]] j),
         minD (column [[1, 2], [3, 4]] j), maxD (column [[1, 2], [3, 4]] j),
         npRms (column [[1, 2], [3, 4]] j),
         maxD (column [[1, 2], [3, 4]] j) - minD (column [[1, 2], [3, 4]] j)]) := by
  have hrect : ∀ r ∈ ([[1, 2], [3, 4]] : List (List ℝ)), r.length = 2 := by
    intro r hr
    simp only [List.mem_cons, List.not_mem_nil, or_false] at hr
    rcases hr with rfl | rfl <;> rfl
  exact ⟨⟨by simp, by norm_num, hrect⟩,
    extract_axis_major [[1, 2], [3, 4]] 2 (by simp) (by norm_num) hrect⟩


/-! ## Theorems: order facts about the statistics -/

theorem foldl_min_le_init (xs : List ℝ) : ∀ x : ℝ, xs.foldl min x ≤ x := by
  induction xs with
  | nil => intro x; exact le_refl x
  | cons a t ih => intro x; exact le_trans (ih (min x a)) (min_le_left x a)


theorem foldl_min_le_mem (xs : List ℝ) : ∀ x y : ℝ, y ∈ xs → xs.foldl min x ≤ y := by
  induction xs with
  | nil => intro x y hy; cases hy
  | cons a t ih =>
    intro x y hy
    rcases List.mem_cons.mp hy with rfl | h
    · exact le_trans (foldl_min_le_init t (min x y)) (min_le_right x y)
    · exact ih (min x a) y h


theorem init_le_foldl_max (xs : List ℝ) : ∀ x : ℝ, x ≤ xs.foldl max x := by
  induction xs with
  | nil => intro x; exact le_refl x
  | cons a t ih => intro x; exact le_trans (le_max_left x a) (ih (max x a))


theorem mem_le_foldl_max (xs : List ℝ) : ∀ x y : ℝ, y ∈ xs → y ≤ xs.foldl max x := by
  induction xs with
  | nil => intro x y hy; cases hy
  | cons a t ih =>
    intro x y hy
    rcases List.mem_cons.mp hy with rfl | h
    · exact le_trans (le_max_right x y) (init_le_foldl_max t (max x y))
    · exact ih (max x a) y h


theorem minD_le_mem (x : ℝ) (t : List ℝ) : ∀ y ∈ x :: t, minD (x :: t) ≤ y := by
  intro y hy
  rcases List.mem_cons.mp hy with rfl | h
  · exact foldl_min_le_init t y
  · exact foldl_min_le_mem t x y h


theorem mem_le_maxD (x : ℝ) (t : List ℝ) : ∀ y ∈ x :: t, y ≤ maxD (x :: t) := by
  intro y hy
  rcases List.mem_cons.mp hy with rfl | h
  · exact init_le_foldl_max t y
  · exact mem_le_foldl_max t x y h


theorem minD_le_npMean (x : ℝ) (t : List ℝ) : minD (x :: t) ≤ npMean (x :: t) := by
  have hlen : (0 : ℝ) < ((x :: t).length : ℝ) := by
    exact_mod_cast Nat.succ_pos t.length
  rw [npMean, le_div_iff₀ hlen]
  have hsum : ((x :: t).length : ℕ) • minD (x :: t) ≤ (x :: t).sum :=
    List.card_nsmul_le_sum (x :: t) (minD (x :: t)) (fun y hy => minD_le_mem x t y hy)
  rw [nsmul_eq_mul] at hsum
  linarith [hsum]


theorem npMean_le_maxD (x : ℝ) (t : List ℝ) : npMean (x :: t) ≤ maxD (x :: t) := by
  have hlen : (0 : ℝ) < ((x :: t).length : ℝ) := by
    exact_mod_cast Nat.succ_pos t.length
  rw [npMean, div_le_iff₀ hlen]
  have hsum : (x :: t).sum ≤ ((x :: t).length : ℕ) • maxD (x :: t) :=
    List.sum_le_card_nsmul (x :: t) (maxD (x :: t)) (fun y hy => mem_le_maxD x t y hy)
  rw [nsmul_eq_mul] at hsum
  linarith [hsum]


/-- Claim C6: on every non-empty rectangular window, each per-axis chunk
of the extracted vector satisfies the algebraic relations: the
peak-to-peak field is exactly the max field minus the min field, the RMS
and standard-deviation fields are non-negative, and the mean field lies
between the min and max fields. -/
theorem extract_field_relations (w : List (List ℝ)) (cols : ℕ)
    (hw : w ≠ []) (_hc : 1 ≤ cols) (_hrect : ∀ r ∈ w, r.length = cols) :
    ∃ fs, extract_features_from_sequence w cols = .ok fs ∧
      ∀ j < cols, ∃ m s mn mx r p, (fs.drop (6 * j)).take 6 = [m, s, mn, mx, r, p] ∧
        p = mx - mn ∧ 0 ≤ r ∧ 0 ≤ s ∧ mn ≤ m ∧ m ≤ mx := by
  obtain ⟨fs, hok, _, hchunk⟩ := extract_chunks_spec w cols hw
  refine ⟨fs, hok, ?_⟩
  intro j hj
  obtain ⟨x0, w', rfl⟩ := List.exists_cons_of_ne_nil hw
  have hcol : column (x0 :: w') j = x0.getD j 0 :: w'.map (fun row => row.getD j 0) := rfl
  refine ⟨npMean (column (x0 :: w') j), npStd (column (x0 :: w') j),
    minD (column (x0 :: w') j), maxD (column (x0 :: w') j),
    npRms (column (x0 :: w') j),
    maxD (column (x0 :: w') j) - minD (column (x0 :: w') j),
    hchunk j hj, rfl, Real.sqrt_nonneg _, Real.sqrt_nonneg _, ?_, ?_⟩
  · rw [hcol]; exact minD_le_npMean _ _
  · rw [hcol]; exact npMean_le_maxD _ _


/-- Claim C6 witness: the relations hold on a concrete 2×1 window. -/
theorem extract_field_relations_witness :
    (([[1], [2]] : List (List ℝ)) ≠ [] ∧ 1 ≤ 1 ∧
      ∀ r ∈ ([[1], [2]] : List (List ℝ)), r.length = 1) ∧
    (∃ fs, extract_features_from_sequence [[1], [2]] 1 = .ok fs ∧
      ∀ j < 1, ∃ m s mn mx r p, (fs.drop (6 * j)).take 6 = [m, s, mn, mx, r, p] ∧
        p = mx - mn ∧ 0 ≤ r ∧ 0 ≤ s ∧ mn ≤ m ∧ m ≤ mx) := by
  have hrect : ∀ r ∈ ([[1], [2]] : List (List ℝ)), r.length = 1 := by
    intro r hr
    simp only [List.mem_cons, List.not_mem_nil, or_false] at hr
    rcases hr with rfl | rfl <;> rfl
  exact ⟨⟨by simp, le_refl 1, hrect⟩,
    extract_field_relations [[1], [2]] 1 (by simp) (le_refl 1) hrect⟩


/-! ## Theorems: concrete evaluation of the scenario window -/

theorem npMean_1234 : npMean [1, 2, 3, 4] = 5 / 2 := by
  norm_num [npMean]


theorem npStd_1234 : npStd [1, 2, 3, 4] = Real.sqrt (5 / 4) := by
  rw [npStd, npMean_1234]
  norm_num


theorem npRms_1234 : npRms [1, 2, 3, 4] = Real.sqrt (15 / 2) := by
  rw [npRms]
  norm_num


theorem minD_1234 : minD [1, 2, 3, 4] = 1 := by
  norm_num [minD, List.foldl_cons, List.foldl_nil, min_def]


theorem maxD_1234 : maxD [1, 2, 3, 4] = 4 := by
  norm_num [maxD, List.foldl_cons, List.foldl_nil, max_def]


/-- Claim C2: on the window `[[1],[2],[3],[4]]` (shape 4×1) the extractor
returns mean `5/2`, the population standard deviation `sqrt(5/4)`
(denominator 4, i.e. `time_steps`, not 3), min `1`, max `4`, RMS
`sqrt(15/2)` and peak-to-peak `3`. -/
theorem extract_window_1234 :
    extract_features_from_sequence [[1], [2], [3], [4]] 1 =
      .ok [5 / 2, Real.sqrt (5 / 4), 1, 4, Real.sqrt (15 / 2), 3] := by
  have hcol : column [[1], [2], [3], [4]] 0 = [1, 2, 3, 4] := rfl
  rw [extract_ok_of_ne_nil _ _ (by simp), show List.range 1 = [0] from rfl]
  simp only [List.map_cons, List.map_nil, List.flatten_cons, List.flatten_nil,
    List.append_nil, hcol, npMean_1234, npStd_1234, npRms_1234, minD_1234, maxD_1234]
  norm_num


/-! ## Theorems: signal synthesizer -/

theorem np_random_normal_of_nonneg (K : GaussKernel) (scale : ℝ) (n : ℕ)
    (st : NpRandomState) (h : ¬ scale < 0) :
    np_random_normal K scale n st =
      .ok ((List.range n).map (fun i => scale * K.unit st.key (st.pos + i)),
           ⟨st.key, st.pos + n⟩) := by
  rw [np_random_normal, if_neg h]


theorem zipWith_add_zeros :
    ∀ (l z : List ℝ), z.length = l.length → (∀ x ∈ z, x = 0) →
      l.zipWith (· + ·) z = l := by
  intro l
  induction l with
  | nil => intro z _ _; simp
  | cons a t ih =>
    intro z hlen hz
    cases z with
    | nil => simp at hlen
    | cons b z' =>
      have hb : b = 0 := hz b (List.mem_cons_self b z')
      have ht : t.zipWith (· + ·) z' = t := by
        refine ih z' ?_ (fun x hx => hz x (List.mem_cons_of_mem b hx))
        simpa using hlen
      simp [hb, ht]


/-- Claim C7: synthesis reseeds the global stream from the spec's seed,
so its result does not depend on the incoming stream state at all:
two calls with the same spec and timestamps — in particular an
immediately repeated call — return identical results. -/
theorem synthesize_deterministic (K : GaussKernel) (ts : List ℝ) (sp : SynthesisSpec)
    (st st' : NpRandomState) :
    synthesize K ts sp st = synthesize K ts sp st' := rfl


/-- Claim C7 witness: two calls from two distinct concrete states agree. -/
theorem synthesize_deterministic_witness :
    synthesize ⟨fun _ _ => 0⟩ [0] spec50 ⟨1, 2⟩ = synthesize ⟨fun _ _ => 0⟩ [0] spec50 ⟨3, 4⟩ :=
  synthesize_deterministic ⟨fun _ _ => 0⟩ [0] spec50 ⟨1, 2⟩ ⟨3, 4⟩


/-- Claim C8: a negative `noise_std` makes synthesis fail with the
InvalidConfiguration error (numpy's `ValueError: scale < 0`); it is
never clamped into a successful result. -/
theorem synthesize_negative_noise_std_fails (K : GaussKernel) (ts : List ℝ)
    (sp : SynthesisSpec) (st : NpRandomState) (h : sp.noise_std < 0) :
    synthesize K ts sp st = .error .invalidConfiguration := by
  rw [synthesize, add_noise]
  simp only [np_random_seed, np_random_normal, if_pos h]
  rfl


/-- Claim C8 witness: a concrete spec with `noise_std = -1` is rejected. -/
theorem synthesize_negative_noise_std_fails_witness :
    (SynthesisSpec.mk 50 1 1 (-1) 42).noise_std < 0 ∧
      synthesize ⟨fun _ _ => 0⟩ [0, 1] (SynthesisSpec.mk 50 1 1 (-1) 42) ⟨0, 0⟩ =
        .error .invalidConfiguration :=
  ⟨by norm_num,
   synthesize_negative_noise_std_fails ⟨fun _ _ => 0⟩ [0, 1]
     (SynthesisSpec.mk 50 1 1 (-1) 42) ⟨0, 0⟩ (by norm_num)⟩


/-- Claim C3: with `noise_std = 0` the drawn noise vector is identically
zero, so synthesis returns exactly the deterministic sinusoid
`base + amplitude * sin(angular_rate * t)` elementwise; in particular on
the grid `[0, 0.1, ..., 9.9]` with spec
`{base=50, amplitude=0.5, angular_rate=1, noise_std=0, seed=42}` the
output is exactly `50 + 0.5 * sin(t)` elementwise. -/
theorem synthesize_zero_noise_exact :
    (∀ (K : GaussKernel) (sp : SynthesisSpec), sp.noise_std = 0 →
      ∀ (ts : List ℝ) (st : NpRandomState),
        (synthesize K ts sp st).map Prod.fst =
          .ok (ts.map (fun t => sp.base + sp.amplitude * Real.sin (sp.angular_rate * t)))) ∧
    (∀ (K : GaussKernel) (st : NpRandomState),
      (synthesize K ts100 spec50 st).map Prod.fst =
        .ok (ts100.map (fun t => 50 + 1 / 2 * Real.sin t))) := by
  have ha : ∀ (K : GaussKernel) (sp : SynthesisSpec), sp.noise_std = 0 →
      ∀ (ts : List ℝ) (st : NpRandomState),
        (synthesize K ts sp st).map Prod.fst =
          .ok (ts.map (fun t => sp.base + sp.amplitude * Real.sin (sp.angular_rate * t))) := by
    intro K sp h ts st
    rw [synthesize, add_noise]
    simp only [np_random_seed]
    rw [np_random_normal_of_nonneg _ _ _ _ (by rw [h]; exact lt_irrefl 0)]
    simp only [h, zero_mul, Except.bind, Except.map]
    congr 1
    refine zipWith_add_zeros _ _ (by simp) ?_
    intro x hx
    obtain ⟨i, _, rfl⟩ := List.mem_map.mp hx
    rfl
  refine ⟨ha, ?_⟩
  intro K st
  rw [ha K spec50 rfl ts100 st]
  congr 1
  refine List.map_congr_left ?_
  intro a _
  show spec50.base + spec50.amplitude * Real.sin (spec50.angular_rate * a) =
    50 + 1 / 2 * Real.sin a
  rw [show spec50.base = 50 from rfl, show spec50.amplitude = 1 / 2 from rfl,
    show spec50.angular_rate = 1 from rfl, one_mul]


/-- Claim C3 witness: a concrete kernel, state and timestamp list
instantiate the zero-noise formula. -/
theorem synthesize_zero_noise_exact_witness :
    spec50.noise_std = 0 ∧
      (synthesize ⟨fun _ _ => 0⟩ [0, 1] spec50 ⟨3, 7⟩).map Prod.fst =
        .ok (([0, 1] : List ℝ).map (fun t =>
          spec50.base + spec50.amplitude * Real.sin (spec50.angular_rate * t))) :=
  ⟨rfl, synthesize_zero_noise_exact.1 ⟨fun _ _ => 0⟩ spec50 rfl [0, 1] ⟨3, 7⟩⟩


/-! ## Theorems: dataset loader ordering and skipping -/

/-- Claim C5 counterexample: a root whose only subdirectory is the
recognized class `misalignment` with no csv files loads successfully
(with zero samples) — no NoSamplesFound error, no error at all. -/
theorem load_empty_recognized_dir_no_error :
    load_csv_data_with_features (some [⟨"misalignment", []⟩]) =
      .ok ([], [], condition_names) := by
  have hsf : sortFiles [] = ([] : List CsvFile) := by
    rw [sortFiles]; exact List.mergeSort_nil
  have hm : condition_mapping "misalignment" = some 2 := by decide
  have hp : processDir ⟨"misalignment", []⟩ = .ok ([], []) := by
    rw [processDir]
    simp only [hm, hsf, mapE_nil, Except.mapError, Except.bind]
    rfl
  have hsd : sortDirs [⟨"misalignment", []⟩] = [⟨"misalignment", []⟩] := by
    rw [sortDirs]; exact List.mergeSort_singleton _
  rw [load_csv_data_with_features]
  simp only [List.isEmpty_cons, Bool.false_eq_true, if_false, hsd]
  rw [show mapE processDir [(⟨"misalignment", []⟩ : ConditionDir)] =
      (processDir ⟨"misalignment", []⟩).bind (fun b => .ok [b]) from rfl, hp]
  rfl


/-- Claim C5 amended: an empty class subdirectory — recognized or not —
is not an error: a root consisting of just that subdirectory loads
successfully and contributes zero samples. -/
theorem load_empty_dir_ok (c : String) :
    load_csv_data_with_features (some [⟨c, []⟩]) = .ok ([], [], condition_names) := by
  have hsf : sortFiles [] = ([] : List CsvFile) := by
    rw [sortFiles]; exact List.mergeSort_nil
  have hp : processDir ⟨c, []⟩ = .ok ([], []) := by
    rw [processDir]
    rcases h : condition_mapping c with _ | label
    · rfl
    · simp only [hsf, mapE_nil, Except.mapError, Except.bind]
      rfl
  have hsd : sortDirs [⟨c, []⟩] = [⟨c, []⟩] := by
    rw [sortDirs]; exact List.mergeSort_singleton _
  rw [load_csv_data_with_features]
  simp only [List.isEmpty_cons, Bool.false_eq_true, if_false, hsd]
  rw [show mapE processDir [(⟨c, []⟩ : ConditionDir)] =
      (processDir ⟨c, []⟩).bind (fun b => .ok [b]) from rfl, hp]
  rfl


/-- Claim C5 amended witness: instantiated at the recognized class name
`bearing`. -/
theorem load_empty_dir_ok_witness :
    load_csv_data_with_features (some [⟨"bearing", []⟩]) = .ok ([], [], condition_names) :=
  load_empty_dir_ok "bearing"


theorem mergeSort_key_sorted {α : Type} (key : α → String) (l : List α) :
    (l.mergeSort (fun a b => decide (key a ≤ key b))).Pairwise
      (fun a b => key a ≤ key b) := by
  have hs := @List.sorted_mergeSort _ (fun a b => decide (key a ≤ key b))
    (fun a b c hab hbc => by
      simp only [decide_eq_true_eq] at hab hbc ⊢
      exact le_trans hab hbc)
    (fun a b => by
      simp only [Bool.or_eq_true, decide_eq_true_eq]
      exact le_total (key a) (key b))
    l
  exact hs.imp (fun h => of_decide_eq_true h)


/-- Sorting a duplicate-free-keyed list is invariant under permutations
of the input: both results are sorted by strictly increasing key and are
permutations of each other, hence equal. -/
theorem mergeSort_key_eq_of_perm {α : Type} (key : α → String) (l l' : List α)
    (hperm : l.Perm l') (hnodup : (l.map key).Nodup) :
    l.mergeSort (fun a b => decide (key a ≤ key b)) =
      l'.mergeSort (fun a b => decide (key a ≤ key b)) := by
  have h1 := List.mergeSort_perm l (fun a b => decide (key a ≤ key b))
  have h2 := List.mergeSort_perm l' (fun a b => decide (key a ≤ key b))
  have hp : (l.mergeSort (fun a b => decide (key a ≤ key b))).Perm
      (l'.mergeSort (fun a b => decide (key a ≤ key b))) :=
    h1.trans (hperm.trans h2.symm)
  have hnd1 : ((l.mergeSort (fun a b => decide (key a ≤ key b))).map key).Nodup :=
    ((h1.map key).nodup_iff).mpr hnodup
  have hnd2 : ((l'.mergeSort (fun a b => decide (key a ≤ key b))).map key).Nodup :=
    ((h2.map key).nodup_iff).mpr (((hperm.map key).nodup_iff).mp hnodup)
  have hstrict : ∀ m : List α, (m.map key).Nodup →
      m.Pairwise (fun a b => key a ≤ key b) → m.Pairwise (fun a b => key a < key b) := by
    intro m hnd hle
    have hne : m.Pairwise (fun a b => key a ≠ key b) := List.pairwise_map.mp hnd
    exact (hle.and hne).imp (fun h => lt_of_le_of_ne h.1 h.2)
  haveI : IsAntisymm α (fun a b => key a < key b) :=
    ⟨fun a b hab hba => (lt_asymm hab hba).elim⟩
  exact List.eq_of_perm_of_sorted hp
    (hstrict _ hnd1 (mergeSort_key_sorted key l))
    (hstrict _ hnd2 (mergeSort_key_sorted key l'))


/-- Claim C9: the loader's traversal order is canonical.  (i) For
duplicate-free directory names, the loader's result is invariant under
any permutation of the directory listing; (ii) for duplicate-free file
names, the per-directory result is invariant under any permutation of
the file listing; (iii) and (iv): directories and files are actually
visited in lexicographically sorted name order.  Hence the returned
(feature, label) sequence is a function of the directory contents alone. -/
theorem load_order_deterministic :
    (∀ l l' : List ConditionDir, (l.map ConditionDir.name).Nodup → l.Perm l' →
      load_csv_data_with_features (some l) = load_csv_data_with_features (some l')) ∧
    (∀ (c : String) (fs fs' : List CsvFile), (fs.map CsvFile.name).Nodup → fs.Perm fs' →
      processDir ⟨c, fs⟩ = processDir ⟨c, fs'⟩) ∧
    (∀ l : List ConditionDir, ((sortDirs l).map ConditionDir.name).Sorted (· ≤ ·)) ∧
    (∀ fs : List CsvFile, ((sortFiles fs).map CsvFile.name).Sorted (· ≤ ·)) := by
  refine ⟨?_, ?_, ?_, ?_⟩
  · intro l l' hnodup hperm
    have hsd : sortDirs l = sortDirs l' :=
      mergeSort_key_eq_of_perm ConditionDir.name l l' hperm hnodup
    rw [load_csv_data_with_features, load_csv_data_with_features]
    cases l with
    | nil =>
      rw [hperm.nil_eq]
    | cons d l0 =>
      cases l' with
      | nil => exact absurd hperm.length_eq (by simp)
      | cons d' l0' =>
        simp only [List.isEmpty_cons, Bool.false_eq_true, if_false]
        rw [show sortDirs (d :: l0) = sortDirs (d' :: l0') from hsd]
  · intro c fs fs' hnodup hperm
    have hsf : sortFiles fs = sortFiles fs' :=
      mergeSort_key_eq_of_perm CsvFile.name fs fs' hperm hnodup
    rw [processDir, processDir]
    rcases h : condition_mapping c with _ | label
    · rfl
    · simp only [sortFiles] at hsf
      simp only [sortFiles, hsf]
  · intro l
    exact List.pairwise_map.mpr (mergeSort_key_sorted ConditionDir.name l)
  · intro fs
    exact List.pairwise_map.mpr (mergeSort_key_sorted CsvFile.name fs)


/-- Claim C9 witness: swapping two concretely named directories (and,
for the per-directory part, two files) leaves the loader output
unchanged. -/
theorem load_order_deterministic_witness :
    ((([⟨"normal", []⟩, ⟨"bearing", []⟩] : List ConditionDir).map ConditionDir.name).Nodup ∧
      (([⟨"b.csv", []⟩, ⟨"a.csv", []⟩] : List CsvFile).map CsvFile.name).Nodup) ∧
    load_csv_data_with_features (some [⟨"normal", []⟩, ⟨"bearing", []⟩]) =
      load_csv_data_with_features (some [⟨"bearing", []⟩, ⟨"normal", []⟩]) ∧
    processDir ⟨"normal", [⟨"b.csv", []⟩, ⟨"a.csv", []⟩]⟩ =
      processDir ⟨"normal", [⟨"a.csv", []⟩, ⟨"b.csv", []⟩]⟩ :=
  ⟨⟨by decide, by decide⟩,
   load_order_deterministic.1 _ _ (by decide) (List.Perm.swap _ _ _),
   load_order_deterministic.2.1 "normal" _ _ (by decide) (List.Perm.swap _ _ _)⟩


/-! ## Theorems: shape of successful loads -/

theorem mapE_ok_length (f : α → Except ε β) :
    ∀ (l : List α) (ys : List β), mapE f l = .ok ys → ys.length = l.length := by
  intro l
  induction l with
  | nil =>
    intro ys h
    rw [mapE_nil] at h
    cases h
    rfl
  | cons a t ih =>
    intro ys h
    rw [mapE_cons] at h
    rcases hfa : f a with e | b
    · rw [hfa] at h; cases h
    · rw [hfa] at h
      rcases hmt : mapE f t with e | bs
      · rw [hmt] at h; cases h
      · rw [hmt] at h
        cases h
        simp [ih bs hmt]


theorem mapE_ok_mem (f : α → Except ε β) :
    ∀ (l : List α) (ys : List β), mapE f l = .ok ys →
      ∀ y ∈ ys, ∃ a ∈ l, f a = .ok y := by
  intro l
  induction l with
  | nil =>
    intro ys h
    rw [mapE_nil] at h
    cases h
    intro y hy
    cases hy
  | cons a t ih =>
    intro ys h
    rw [mapE_cons] at h
    rcases hfa : f a with e | b
    · rw [hfa] at h; cases h
    · rw [hfa] at h
      rcases hmt : mapE f t with e | bs
      · rw [hmt] at h; cases h
      · rw [hmt] at h
        cases h
        intro y hy
        rcases List.mem_cons.mp hy with rfl | hmem
        · exact ⟨a, List.mem_cons_self a t, hfa⟩
        · obtain ⟨a', ha', hfa'⟩ := ih bs hmt y hmem
          exact ⟨a', List.mem_cons_of_mem a ha', hfa'⟩


theorem condition_mapping_range (c : String) (label : ℕ)
    (h : condition_mapping c = some label) :
    label = 0 ∨ label = 1 ∨ label = 2 ∨ label = 3 := by
  rw [condition_mapping] at h
  split_ifs at h <;> simp_all


theorem processDir_shape (d : ConditionDir) (xs : List (List ℝ)) (labs : List ℕ)
    (h : processDir d = .ok (xs, labs)) :
    xs.length = labs.length ∧ ∀ lab ∈ labs, lab = 0 ∨ lab = 1 ∨ lab = 2 ∨ lab = 3 := by
  rw [processDir] at h
  rcases hm : condition_mapping d.name with _ | label
  · rw [hm] at h
    simp only at h
    rcases h with ⟨rfl, rfl⟩
    exact ⟨rfl, fun lab hlab => absurd hlab (List.not_mem_nil lab)⟩
  · rw [hm] at h
    simp only at h
    rcases hE : mapE (fun f => extract_features_from_sequence f.rows 3) (sortFiles d.files)
        with e | ys
    · rw [hE] at h
      cases h
    · rw [hE] at h
      simp only [Except.mapError, Except.bind] at h
      cases h
      constructor
      · rw [mapE_ok_length _ _ _ hE, List.length_map]
      · intro lab hlab
        obtain ⟨_, _, rfl⟩ := List.mem_map.mp hlab
        exact condition_mapping_range d.name label hm


/-- Claim C10: whenever the loader returns successfully, the feature
matrix and the label list have the same number of rows, and every label
comes from the fixed class mapping (`normal`=0, `bearing`=1,
`misalignment`=2, `imbalance`=3), hence is one of 0, 1, 2, 3. -/
theorem load_X_y_aligned (root : Option (List ConditionDir)) (X : List (List ℝ))
    (y : List ℕ) (names : List String)
    (h : load_csv_data_with_features root = .ok (X, y, names)) :
    X.length = y.length ∧ ∀ lab ∈ y, lab = 0 ∨ lab = 1 ∨ lab = 2 ∨ lab = 3 := by
  rcases root with _ | dirs
  · cases h
  · rw [load_csv_data_with_features] at h
    rcases hie : dirs.isEmpty with _ | _
    · rw [hie] at h
      simp only [Bool.false_eq_true, if_false] at h
      rcases hparts : mapE processDir (sortDirs dirs) with e | parts
      · rw [hparts] at h
        cases h
      · rw [hparts] at h
        simp only [Except.bind] at h
        cases h
        have hshape : ∀ p ∈ parts, p.1.length = p.2.length ∧
            ∀ lab ∈ p.2, lab = 0 ∨ lab = 1 ∨ lab = 2 ∨ lab = 3 := by
          intro p hp
          obtain ⟨d, _, hd⟩ := mapE_ok_mem _ _ _ hparts p hp
          exact processDir_shape d p.1 p.2 (by rwa [show ((p.1, p.2) : List (List ℝ) × List ℕ) = p from rfl])
        constructor
        · rw [List.length_flatten, List.length_flatten, List.map_map, List.map_map]
          congr 1
          exact List.map_congr_left (fun p hp => (hshape p hp).1)
        · intro lab hlab
          rw [List.mem_flatten] at hlab
          obtain ⟨labs, hlabs, hmem⟩ := hlab
          obtain ⟨p, hp, rfl⟩ := List.mem_map.mp hlabs
          exact (hshape p hp).2 lab hmem
    · rw [hie] at h
      simp only [if_true] at h
      cases h


/-- Claim C10 witness: a concrete root with one `normal` directory and
one all-zero sample file loads to one 18-entry feature row with label 0. -/
theorem load_X_y_aligned_witness :
    load_csv_data_with_features (some [⟨"normal", [⟨"s.csv", [[0, 0, 0]]⟩]⟩]) =
      .ok ([List.replicate 18 (0 : ℝ)], [0], condition_names) ∧
    ([List.replicate 18 (0 : ℝ)] : List (List ℝ)).length = [0].length ∧
      ∀ lab ∈ ([0] : List ℕ), lab = 0 ∨ lab = 1 ∨ lab = 2 ∨ lab = 3 := by
  have hx : extract_features_from_sequence [[0, 0, 0]] 3 = .ok (List.replicate 18 (0 : ℝ)) := by
    rw [extract_ok_of_ne_nil _ _ (by simp), show List.range 3 = [0, 1, 2] from rfl]
    have hc0 : column [[0, 0, 0]] 0 = [(0 : ℝ)] := rfl
    have hc1 : column [[0, 0, 0]] 1 = [(0 : ℝ)] := rfl
    have hc2 : column [[0, 0, 0]] 2 = [(0 : ℝ)] := rfl
    have hm : npMean [(0 : ℝ)] = 0 := by simp [npMean]
    have hs : npStd [(0 : ℝ)] = 0 := by simp [npStd, npMean]
    have hr : npRms [(0 : ℝ)] = 0 := by simp [npRms]
    have hmin : minD [(0 : ℝ)] = 0 := rfl
    have hmax : maxD [(0 : ℝ)] = 0 := rfl
    simp only [List.map_cons, List.map_nil, hc0, hc1, hc2, hm, hs, hr, hmin, hmax,
      List.flatten_cons, List.flatten_nil, List.append_nil, sub_zero]
    rfl
  have hmapn : condition_mapping "normal" = some 0 := by decide
  have hsf1 : sortFiles [⟨"s.csv", [[0, 0, 0]]⟩] = [⟨"s.csv", [[0, 0, 0]]⟩] := by
    rw [sortFiles]; exact List.mergeSort_singleton _
  have hp : processDir ⟨"normal", [⟨"s.csv", [[0, 0, 0]]⟩]⟩ =
      .ok ([List.replicate 18 (0 : ℝ)], [0]) := by
    rw [processDir]
    simp only [hmapn, hsf1]
    rw [show mapE (fun f => extract_features_from_sequence f.rows 3)
        [(⟨"s.csv", [[0, 0, 0]]⟩ : CsvFile)] =
        (extract_features_from_sequence [[0, 0, 0]] 3).bind (fun b => .ok [b]) from rfl, hx]
    rfl
  have hsd1 : sortDirs [⟨"normal", [⟨"s.csv", [[0, 0, 0]]⟩]⟩] =
      [⟨"normal", [⟨"s.csv", [[0, 0, 0]]⟩]⟩] := by
    rw [sortDirs]; exact List.mergeSort_singleton _
  have hload : load_csv_data_with_features (some [⟨"normal", [⟨"s.csv", [[0, 0, 0]]⟩]⟩]) =
      .ok ([List.replicate 18 (0 : ℝ)], [0], condition_names) := by
    rw [load_csv_data_with_features]
    simp only [List.isEmpty_cons, Bool.false_eq_true, if_false, hsd1]
    rw [show mapE processDir [(⟨"normal", [⟨"s.csv", [[0, 0, 0]]⟩]⟩ : ConditionDir)] =
        (processDir ⟨"normal", [⟨"s.csv", [[0, 0, 0]]⟩]⟩).bind (fun b => .ok [b]) from rfl, hp]
    rfl
  exact ⟨hload, load_X_y_aligned _ _ _ _ hload⟩


end Workshops
